import Mathlib

/-!
Shallow embedding of the treasure-hunt bot game-progression engine
(source: src/treasure_hunt_bot.py).  The catalog, session store,
progression operations, leaderboard and the startup dispatch of main
are translated into executable Lean definitions; timestamps are
modelled as integers and the Python dict game_data as an association
list in insertion order (Python dicts preserve insertion order, and
assigning to an existing key keeps its position).
-/

namespace TreasureHunt

/-- Session status: the source stores the strings "active" and "completed". -/
inductive SessionStatus
  | active
  | completed
deriving DecidableEq, Repr

/-- One riddle definition from load_riddles.  The answer key is optional in
the source dicts; image and map paths are optional too. -/
structure Riddle where
  id : Nat
  riddle : String
  answer : Option String
  hint : String
  location : String
  image_path : Option String
  map_path : Option String
  qr_code : String
deriving DecidableEq, Repr

/-- Per-team session dict created by create_game_session.  The end_time key
is absent until completion, hence Option. -/
structure GameSession where
  team_name : String
  current_riddle : Nat
  start_time : Int
  completed_riddles : List Nat
  hints_used : Nat
  status : SessionStatus
  end_time : Option Int
deriving DecidableEq, Repr

/-- Whole-bot state: the riddle catalog and the game_data dict. -/
structure BotState where
  riddles : List Riddle
  game_data : List (Nat × GameSession)
deriving DecidableEq, Repr

/-- Lookup in an association list: first binding wins (Python dict get). -/
def dictGet : List (Nat × GameSession) → Nat → Option GameSession
  | [], _ => none
  | (k, v) :: rest, key => if k = key then some v else dictGet rest key

/-- Assignment in an association list: replace an existing binding in place,
else append (Python dict assignment preserves insertion order). -/
def dictSet : List (Nat × GameSession) → Nat → GameSession → List (Nat × GameSession)
  | [], key, v => [(key, v)]
  | (k, w) :: rest, key, v =>
    if k = key then (key, v) :: rest else (k, w) :: dictSet rest key v

/-- The hard-coded catalog returned by load_riddles (prose fields shortened;
ids, answers and codes are the ones the logic depends on). -/
def defaultRiddles : List Riddle :=
  [ { id := 0, riddle := "Warm-up! What building has the most stories?",
      answer := some "library", hint := "Think about books!",
      location := "start", image_path := some "img_riddles/riddle_0.jpg",
      map_path := some "img_maps/map_1.jpg", qr_code := "N/A" },
    { id := 1, riddle := "Under the shade...",
      answer := some "park", hint := "...",
      location := "park", image_path := some "...",
      map_path := some "img_maps/map_2.jpg",
      qr_code := "TREASURE_HUNT_LOC_1_PARK" },
    { id := 3, riddle := "Where caffeine flows and friends meet.",
      answer := none, hint := "The smell of fresh coffee guides the way!",
      location := "cafe", image_path := some "img_riddles/riddle_3.jpg",
      map_path := none, qr_code := "TREASURE_HUNT_LOC_3_CAFE" },
    { id := 4, riddle := "The final treasure lies within.",
      answer := none, hint := "Return to where your journey began!",
      location := "start", image_path := some "img_riddles/riddle_4.jpg",
      map_path := none, qr_code := "TREASURE_HUNT_LOC_4_START" } ]

/-- The session dict built by create_game_session: position 0, empty
completed list, zero hints, active, started now, no end time yet. -/
def freshSession (team_name : String) (now : Int) : GameSession :=
  { team_name := team_name, current_riddle := 0, start_time := now,
    completed_riddles := [], hints_used := 0, status := .active,
    end_time := none }

/-- create_game_session: a fresh session assigned into game_data,
overwriting any prior session for the chat. -/
def create_game_session (st : BotState) (chat_id : Nat) (team_name : String)
    (now : Int) : GameSession × BotState :=
  let session := freshSession team_name now
  (session, { st with game_data := dictSet st.game_data chat_id session })

/-- get_current_riddle: None when no session, or when current_riddle is at
or past the catalog length; otherwise the riddle at the current position. -/
def get_current_riddle (st : BotState) (chat_id : Nat) : Option Riddle :=
  match dictGet st.game_data chat_id with
  | none => none
  | some session => st.riddles[session.current_riddle]?

/-- validate_qr_code: true iff a current riddle exists and the scanned data
equals its qr_code exactly.  Pure read, no state change. -/
def validate_qr_code (st : BotState) (chat_id : Nat) (qr_data : String) : Bool :=
  match get_current_riddle st chat_id with
  | none => false
  | some current => qr_data == current.qr_code

/-- advance_riddle: False when no session exists; otherwise appends the
current position to completed_riddles, increments current_riddle, and when
the new position is at or past the catalog length sets status completed and
stamps end_time with the current time. -/
def advance_riddle (st : BotState) (chat_id : Nat) (now : Int) : Bool × BotState :=
  match dictGet st.game_data chat_id with
  | none => (false, st)
  | some session =>
    let s1 : GameSession :=
      { session with
        completed_riddles := session.completed_riddles ++ [session.current_riddle],
        current_riddle := session.current_riddle + 1 }
    let s2 : GameSession :=
      if st.riddles.length ≤ s1.current_riddle then
        { s1 with status := .completed, end_time := some now }
      else s1
    (true, { st with game_data := dictSet st.game_data chat_id s2 })

/-- Normalization applied by handle_message to the inbound text and to the
expected answer: strip surrounding whitespace, then lowercase (modelled
over the character list, with the ASCII case mapping). -/
def normalize (s : String) : String :=
  String.mk (((s.data.dropWhile Char.isWhitespace).reverse.dropWhile
    Char.isWhitespace).reverse.map Char.toLower)

/-- Outcome of the free-text answer path of handle_message. -/
inductive SubmitOutcome
  | noActiveGame
  | allSolved
  | correct
  | incorrect
deriving DecidableEq, Repr

/-- submit_answer: the free-text answer path of handle_message (source lines
374-399).  The raw message is stripped and lowered; a missing session or a
non-active status reports no active game; a missing current riddle reports
all riddles solved; otherwise the normalized text is compared with the
normalized expected answer, defaulting to the empty string when the riddle
has no answer key.  Every branch returns the state unchanged, as the source
path performs no mutation. -/
def submit_answer (st : BotState) (chat_id : Nat) (raw : String) :
    SubmitOutcome × BotState :=
  match dictGet st.game_data chat_id with
  | none => (.noActiveGame, st)
  | some session =>
    if session.status = .active then
      match get_current_riddle st chat_id with
      | none => (.allSolved, st)
      | some current =>
        if normalize raw = normalize ((current.answer).getD "") then (.correct, st)
        else (.incorrect, st)
    else (.noActiveGame, st)

/-- Outcome of a hint request. -/
inductive HintOutcome
  | hintGiven (text : String)
  | noActiveRiddle
deriving DecidableEq, Repr

/-- hint_command and the hint button callback: when a current riddle exists,
increment hints_used of the session and return its hint text; otherwise
report no active riddle and leave the state unchanged. -/
def hint_command (st : BotState) (chat_id : Nat) : HintOutcome × BotState :=
  match get_current_riddle st chat_id with
  | none => (.noActiveRiddle, st)
  | some current =>
    let gd :=
      match dictGet st.game_data chat_id with
      | none => st.game_data
      | some session =>
        dictSet st.game_data chat_id
          { session with hints_used := session.hints_used + 1 }
    (.hintGiven current.hint, { st with game_data := gd })

/-- One row of the leaderboard returned by get_leaderboard. -/
structure LeaderboardEntry where
  team_name : String
  duration : Int
  hints_used : Nat
  chat_id : Nat
deriving DecidableEq, Repr

/-- The entry built for a completed session, given its end time. -/
def mkEntry (chat_id : Nat) (s : GameSession) (end_time : Int) : LeaderboardEntry :=
  { team_name := s.team_name, duration := end_time - s.start_time,
    hints_used := s.hints_used, chat_id := chat_id }

/-- The collection loop of get_leaderboard: walk game_data in insertion
order, keep the completed sessions, and read their end_time (the source
raises a key error when a completed session lacks end_time, modelled as
none). -/
def completedGames : List (Nat × GameSession) → Option (List LeaderboardEntry)
  | [] => some []
  | (chat_id, s) :: rest =>
    if s.status = .completed then
      match s.end_time, completedGames rest with
      | some e, some l => some (mkEntry chat_id s e :: l)
      | _, _ => none
    else completedGames rest

/-- The sort key order of get_leaderboard: the Python tuple comparison of
(duration, hints_used), ascending. -/
def entryLe (a b : LeaderboardEntry) : Prop :=
  a.duration < b.duration ∨ (a.duration = b.duration ∧ a.hints_used ≤ b.hints_used)

instance : DecidableRel entryLe := fun _ _ =>
  inferInstanceAs (Decidable (_ ∨ _))

instance : IsTotal LeaderboardEntry entryLe where
  total a b := by
    unfold entryLe
    rcases lt_trichotomy a.duration b.duration with h | h | h
    · exact Or.inl (Or.inl h)
    · rcases Nat.le_total a.hints_used b.hints_used with h2 | h2
      · exact Or.inl (Or.inr ⟨h, h2⟩)
      · exact Or.inr (Or.inr ⟨h.symm, h2⟩)
    · exact Or.inr (Or.inl h)

instance : IsTrans LeaderboardEntry entryLe where
  trans a b c hab hbc := by
    unfold entryLe at *
    rcases hab with h1 | ⟨h1, h1h⟩ <;> rcases hbc with h2 | ⟨h2, h2h⟩
    · exact Or.inl (h1.trans h2)
    · exact Or.inl (h2 ▸ h1)
    · exact Or.inl (h1 ▸ h2)
    · exact Or.inr ⟨h1.trans h2, h1h.trans h2h⟩

/-- get_leaderboard: the completed games, sorted stably by ascending
(duration, hints_used).  The Python list sort is stable, and a stable sort
is uniquely determined by its key order, so it is modelled by the stable
insertion sort. -/
def get_leaderboard (gd : List (Nat × GameSession)) : Option (List LeaderboardEntry) :=
  (completedGames gd).map (List.insertionSort entryLe)

/-- Command-line switches of main that decide the dispatch. -/
structure Args where
  token : Option String
  generate_qr : Bool
  list_riddles : Bool
  validate : Bool
deriving DecidableEq, Repr

/-- What a run of main does before (or instead of) polling. -/
inductive MainOutcome
  | listedRiddles
  | generatedQr
  | duplicateIds
  | duplicateCodes
  | validationPassed
  | noToken
  | botRunning
deriving DecidableEq, Repr

/-- Duplicate id check of the validate branch: the id list and its set
differ in size. -/
def hasDuplicateIds (riddles : List Riddle) : Bool :=
  ¬ (riddles.map (·.id)).Nodup

/-- Duplicate qr_code check of the validate branch. -/
def hasDuplicateCodes (riddles : List Riddle) : Bool :=
  ¬ (riddles.map (·.qr_code)).Nodup

/-- The dispatch order of main: list-riddles, then generate-qr, then
validate (duplicate ids, duplicate codes, pass), then the token check, and
otherwise the bot starts polling with the loaded catalog.  No duplicate
check happens outside the validate branch. -/
def mainDispatch (args : Args) (riddles : List Riddle) : MainOutcome :=
  if args.list_riddles then .listedRiddles
  else if args.generate_qr then .generatedQr
  else if args.validate then
    if hasDuplicateIds riddles then .duplicateIds
    else if hasDuplicateCodes riddles then .duplicateCodes
    else .validationPassed
  else
    match args.token with
    | none => .noToken
    | some _ => .botRunning

/-- The engine operations a conversation can trigger, with the clock
reading passed explicitly for the operations that stamp times. -/
inductive Op
  | create (chat_id : Nat) (team_name : String) (now : Int)
  | advance (chat_id : Nat) (now : Int)
  | hint (chat_id : Nat)
  | submit (chat_id : Nat) (raw : String)
  | validate (chat_id : Nat) (qr_data : String)
deriving DecidableEq, Repr

/-- State transition of one operation (validate_qr_code is a pure read). -/
def applyOp (st : BotState) : Op → BotState
  | .create chat_id team_name now => (create_game_session st chat_id team_name now).2
  | .advance chat_id now => (advance_riddle st chat_id now).2
  | .hint chat_id => (hint_command st chat_id).2
  | .submit chat_id raw => (submit_answer st chat_id raw).2
  | .validate _ _ => st

/-- The state at process start: the loaded catalog and an empty game_data. -/
def initState (riddles : List Riddle) : BotState :=
  { riddles := riddles, game_data := [] }

/-- States reachable from process start by engine operations. -/
def Reachable (riddles : List Riddle) (st : BotState) : Prop :=
  ∃ ops : List Op, st = ops.foldl applyOp (initState riddles)

/-- The per-session invariant: position equals the completed count, the
completed list is exactly 0..position-1 in order, and a completed session
is at or past the catalog length with a stamped end time. -/
def SessionWF (n : Nat) (s : GameSession) : Prop :=
  s.current_riddle = s.completed_riddles.length ∧
  s.completed_riddles = List.range s.current_riddle ∧
  (s.status = .completed → n ≤ s.current_riddle ∧ s.end_time.isSome)

/-- The whole-state invariant: every stored session is well formed. -/
def StateWF (st : BotState) : Prop :=
  ∀ chat_id s, dictGet st.game_data chat_id = some s →
    SessionWF st.riddles.length s

/-! ### Association-list lemmas -/

theorem dictGet_dictSet (l : List (Nat × GameSession)) (k k' : Nat) (v : GameSession) :
    dictGet (dictSet l k v) k' = if k = k' then some v else dictGet l k' := by
  induction l with
  | nil => simp [dictSet, dictGet]
  | cons p rest ih =>
    obtain ⟨k0, w⟩ := p
    by_cases h0 : k0 = k
    · subst h0
      simp only [dictSet, if_pos rfl, dictGet]
      by_cases h1 : k0 = k' <;> simp [h1]
    · simp only [dictSet, if_neg h0, dictGet]
      by_cases h1 : k0 = k'
      · subst h1
        have : ¬ k = k0 := fun h => h0 h.symm
        simp [dictGet, this]
      · simp [dictGet, h1, ih]

/-! ### Frame lemmas: which operations touch which fields -/

theorem submit_answer_state (st : BotState) (chat_id : Nat) (raw : String) :
    (submit_answer st chat_id raw).2 = st := by
  unfold submit_answer
  split
  · rfl
  · split
    · split
      · rfl
      · split <;> rfl
    · rfl

theorem applyOp_riddles (st : BotState) (op : Op) :
    (applyOp st op).riddles = st.riddles := by
  cases op with
  | create chat_id team_name now => rfl
  | advance chat_id now =>
    simp only [applyOp, advance_riddle]
    split <;> rfl
  | hint chat_id =>
    simp only [applyOp, hint_command]
    split
    · rfl
    · rfl
  | submit chat_id raw => simp [applyOp, submit_answer_state]
  | validate chat_id qr_data => rfl

/-! ### Preservation of the session invariant -/

theorem sessionWF_fresh (n : Nat) (team_name : String) (now : Int) :
    SessionWF n (freshSession team_name now) := by
  refine ⟨rfl, rfl, ?_⟩
  intro h
  cases h

theorem stateWF_create (st : BotState) (chat_id : Nat) (team_name : String)
    (now : Int) (h : StateWF st) :
    StateWF (create_game_session st chat_id team_name now).2 := by
  intro c s hget
  simp only [create_game_session] at hget
  rw [dictGet_dictSet] at hget
  by_cases hc : chat_id = c
  · rw [if_pos hc] at hget
    cases hget
    exact sessionWF_fresh _ _ _
  · rw [if_neg hc] at hget
    exact h c s hget

theorem stateWF_advance (st : BotState) (chat_id : Nat) (now : Int)
    (h : StateWF st) : StateWF (advance_riddle st chat_id now).2 := by
  unfold advance_riddle
  cases hget : dictGet st.game_data chat_id with
  | none => simpa using h
  | some session =>
    simp only
    intro c s hs
    simp only at hs
    rw [dictGet_dictSet] at hs
    by_cases hc : chat_id = c
    · rw [if_pos hc] at hs
      obtain ⟨h1, h2, h3⟩ := h chat_id session hget
      cases hs
      by_cases hlen : st.riddles.length ≤ session.current_riddle + 1
      · rw [if_pos hlen]
        refine ⟨?_, ?_, ?_⟩
        · simp [h1]
        · simp [h2, List.range_succ]
        · intro _
          exact ⟨hlen, rfl⟩
      · rw [if_neg hlen]
        refine ⟨?_, ?_, ?_⟩
        · simp [h1]
        · simp [h2, List.range_succ]
        · intro hcomp
          exact absurd (Nat.le_succ_of_le (h3 hcomp).1) hlen
    · rw [if_neg hc] at hs
      exact h c s hs

theorem stateWF_hint (st : BotState) (chat_id : Nat) (h : StateWF st) :
    StateWF (hint_command st chat_id).2 := by
  unfold hint_command
  cases hcur : get_current_riddle st chat_id with
  | none => simpa using h
  | some current =>
    simp only
    cases hget : dictGet st.game_data chat_id with
    | none => simpa using h
    | some session =>
      intro c s hs
      simp only at hs
      rw [dictGet_dictSet] at hs
      by_cases hc : chat_id = c
      · rw [if_pos hc] at hs
        obtain ⟨h1, h2, h3⟩ := h chat_id session hget
        cases hs
        exact ⟨h1, h2, h3⟩
      · rw [if_neg hc] at hs
        exact h c s hs

theorem stateWF_applyOp (st : BotState) (op : Op) (h : StateWF st) :
    StateWF (applyOp st op) := by
  cases op with
  | create chat_id team_name now => exact stateWF_create st chat_id team_name now h
  | advance chat_id now => exact stateWF_advance st chat_id now h
  | hint chat_id => exact stateWF_hint st chat_id h
  | submit chat_id raw =>
    simpa [applyOp, submit_answer_state] using h
  | validate chat_id qr_data => exact h

theorem stateWF_foldl (ops : List Op) (st : BotState) (h : StateWF st) :
    StateWF (ops.foldl applyOp st) := by
  induction ops generalizing st with
  | nil => exact h
  | cons op rest ih => exact ih (applyOp st op) (stateWF_applyOp st op h)

theorem stateWF_init (riddles : List Riddle) : StateWF (initState riddles) := by
  intro c s hs
  cases hs

theorem reachable_wf (riddles : List Riddle) (st : BotState)
    (h : Reachable riddles st) : StateWF st := by
  obtain ⟨ops, rfl⟩ := h
  exact stateWF_foldl ops _ (stateWF_init riddles)

theorem foldl_riddles (ops : List Op) (st : BotState) :
    (ops.foldl applyOp st).riddles = st.riddles := by
  induction ops generalizing st with
  | nil => rfl
  | cons op rest ih => rw [List.foldl_cons, ih, applyOp_riddles]

theorem reachable_riddles (riddles : List Riddle) (st : BotState)
    (h : Reachable riddles st) : st.riddles = riddles := by
  obtain ⟨ops, rfl⟩ := h
  rw [foldl_riddles]
  rfl

/-! ### Characterization of advance_riddle -/

theorem advance_riddle_some (st : BotState) (chat_id : Nat) (now : Int)
    (s : GameSession) (h : dictGet st.game_data chat_id = some s) :
    ∃ s', advance_riddle st chat_id now
        = (true, { st with game_data := dictSet st.game_data chat_id s' }) ∧
      s'.team_name = s.team_name ∧
      s'.current_riddle = s.current_riddle + 1 ∧
      s'.start_time = s.start_time ∧
      s'.completed_riddles = s.completed_riddles ++ [s.current_riddle] ∧
      s'.hints_used = s.hints_used ∧
      s'.status = (if st.riddles.length ≤ s.current_riddle + 1 then .completed
        else s.status) ∧
      s'.end_time = (if st.riddles.length ≤ s.current_riddle + 1 then some now
        else s.end_time) := by
  unfold advance_riddle
  rw [h]
  by_cases hc : st.riddles.length ≤ s.current_riddle + 1 <;>
    exact ⟨_, rfl, by simp [hc]⟩

/-- Repeated advance calls at the given clock readings. -/
def advanceFold (st : BotState) (chat_id : Nat) (ts : List Int) : BotState :=
  ts.foldl (fun acc now => (advance_riddle acc chat_id now).2) st

theorem advanceFold_riddles (ts : List Int) : ∀ (st : BotState) (chat_id : Nat),
    (advanceFold st chat_id ts).riddles = st.riddles := by
  induction ts with
  | nil => intro st chat_id; rfl
  | cons now rest ih =>
    intro st chat_id
    rw [advanceFold, List.foldl_cons, ← advanceFold, ih]
    exact applyOp_riddles st (.advance chat_id now)

theorem advanceFold_session (ts : List Int) : ∀ (st : BotState) (chat_id : Nat)
    (s : GameSession), dictGet st.game_data chat_id = some s →
    ∃ s', dictGet (advanceFold st chat_id ts).game_data chat_id = some s' ∧
      s'.current_riddle = s.current_riddle + ts.length ∧
      s'.completed_riddles
        = s.completed_riddles ++ List.range' s.current_riddle ts.length ∧
      s'.status = (if ts.length = 0 then s.status
        else if st.riddles.length ≤ s.current_riddle + ts.length then .completed
        else s.status) := by
  induction ts with
  | nil =>
    intro st chat_id s h
    exact ⟨s, h, by simp, by simp, by simp⟩
  | cons now rest ih =>
    intro st chat_id s h
    obtain ⟨s1, heq, ht, hpos, hst, hcomp, hh, hstat, hend⟩ :=
      advance_riddle_some st chat_id now s h
    have hget1 : dictGet (advance_riddle st chat_id now).2.game_data chat_id
        = some s1 := by
      rw [heq]
      simp [dictGet_dictSet]
    have hfold : advanceFold st chat_id (now :: rest)
        = advanceFold (advance_riddle st chat_id now).2 chat_id rest := by
      rw [advanceFold, List.foldl_cons, ← advanceFold]
    have hriddles : (advance_riddle st chat_id now).2.riddles = st.riddles :=
      applyOp_riddles st (.advance chat_id now)
    obtain ⟨s', hget', hpos', hcomp', hstat'⟩ :=
      ih (advance_riddle st chat_id now).2 chat_id s1 hget1
    refine ⟨s', by rw [hfold]; exact hget', ?_, ?_, ?_⟩
    · rw [hpos', hpos]
      simp [Nat.add_assoc, Nat.add_comm 1 rest.length]
    · rw [hcomp', hcomp, hpos, List.length_cons, List.range'_succ,
        List.append_assoc]
      rfl
    · rw [hstat', hriddles, hpos, hstat]
      rcases Nat.eq_zero_or_pos rest.length with h0 | h0
      · simp only [h0, if_pos rfl, List.length_cons]
        have : s.current_riddle + 0 + 1 = s.current_riddle + 1 := by omega
        simp [this]
      · have hne : rest.length ≠ 0 := Nat.pos_iff_ne_zero.mp h0
        have hne' : rest.length + 1 ≠ 0 := by omega
        simp only [if_neg hne, List.length_cons, if_neg hne']
        by_cases hbig : st.riddles.length ≤ s.current_riddle + (rest.length + 1)
        · have : st.riddles.length ≤ s.current_riddle + 1 + rest.length := by
            omega
          simp [this, hbig]
        · have h1 : ¬ st.riddles.length ≤ s.current_riddle + 1 + rest.length := by
            omega
          have h2 : ¬ st.riddles.length ≤ s.current_riddle + 1 := by omega
          simp [h1, h2, hbig]

/-! ### Completed sessions have no current riddle -/

theorem completed_no_current (st : BotState) (chat_id : Nat) (s : GameSession)
    (hwf : StateWF st) (h : dictGet st.game_data chat_id = some s)
    (hc : s.status = .completed) : get_current_riddle st chat_id = none := by
  have hlen : st.riddles.length ≤ s.current_riddle := ((hwf chat_id s h).2.2 hc).1
  unfold get_current_riddle
  rw [h]
  exact List.getElem?_eq_none hlen

theorem hint_no_current (st : BotState) (chat_id : Nat)
    (h : get_current_riddle st chat_id = none) :
    hint_command st chat_id = (.noActiveRiddle, st) := by
  unfold hint_command
  rw [h]

theorem submit_not_active (st : BotState) (chat_id : Nat) (raw : String)
    (s : GameSession) (h : dictGet st.game_data chat_id = some s)
    (hc : s.status ≠ .active) :
    (submit_answer st chat_id raw).1 = .noActiveGame := by
  unfold submit_answer
  rw [h]
  simp [hc]

theorem validate_no_current (st : BotState) (chat_id : Nat) (qr_data : String)
    (h : get_current_riddle st chat_id = none) :
    validate_qr_code st chat_id qr_data = false := by
  unfold validate_qr_code
  rw [h]

/-! ### Concrete fixture states used by the closed witness theorems -/

/-- A state with one fresh session at chat 1 for the default catalog. -/
def advWitnessState : BotState :=
  { riddles := defaultRiddles, game_data := [(1, freshSession "ab" 0)] }

/-- A session sitting at catalog position 1 (the riddle whose answer is
park) with position history consistent with one validated code. -/
def parkSession : GameSession :=
  { team_name := "ab", current_riddle := 1, start_time := 0,
    completed_riddles := [0], hints_used := 0, status := .active,
    end_time := none }

/-- State holding parkSession at chat 1. -/
def parkState : BotState :=
  { riddles := defaultRiddles, game_data := [(1, parkSession)] }

/-- Create followed by four advances: a full playthrough of the default
catalog for chat 1. -/
def completedOps : List Op :=
  [.create 1 "ab" 0, .advance 1 1, .advance 1 2, .advance 1 3, .advance 1 4]

/-- The state reached by completedOps. -/
def completedState : BotState :=
  List.foldl applyOp (initState defaultRiddles) completedOps

/-- The session stored at chat 1 in completedState. -/
def completedSession : GameSession :=
  { team_name := "ab", current_riddle := 4, start_time := 0,
    completed_riddles := [0, 1, 2, 3], hints_used := 0,
    status := .completed, end_time := some 4 }

/-- A state with a fresh session at chat 2, for the hint witness. -/
def hintState : BotState :=
  { riddles := defaultRiddles, game_data := [(2, freshSession "cd" 3)] }

/-- The first riddle of the default catalog. -/
def firstCatalogRiddle : Riddle := defaultRiddles.get ⟨0, by decide⟩

/-- A completed session with a stamped finish time, for the C9 witness. -/
def staleSession : GameSession :=
  { team_name := "ef", current_riddle := 4, start_time := 0,
    completed_riddles := [0, 1, 2, 3], hints_used := 1,
    status := .completed, end_time := some 10 }

/-- State holding staleSession at chat 3. -/
def staleState : BotState :=
  { riddles := defaultRiddles, game_data := [(3, staleSession)] }

/-- Create, one advance, a hint and a wrong answer at chat 7. -/
def invariantOps : List Op :=
  [.create 7 "xy" 2, .advance 7 3, .hint 7, .submit 7 "park"]

/-- The state reached by invariantOps. -/
def invariantState : BotState :=
  List.foldl applyOp (initState defaultRiddles) invariantOps

/-- The session stored at chat 7 in invariantState. -/
def invariantSession : GameSession :=
  { team_name := "xy", current_riddle := 1, start_time := 2,
    completed_riddles := [0], hints_used := 1, status := .active,
    end_time := none }

/-! ### Claim theorems -/

/-- C1: advance on any existing session appends the current position to
the completed list and increments the position, setting status completed
and stamping the end time exactly when the incremented position reaches
the catalog length; consequently from a fresh session the status is
completed after exactly N advance calls (N the catalog length, N positive)
and active after every shorter prefix of calls. -/
theorem advance_spec :
    (∀ (st : BotState) (chat_id : Nat) (now : Int) (s : GameSession),
      dictGet st.game_data chat_id = some s →
      ∃ s', (advance_riddle st chat_id now).1 = true ∧
        dictGet (advance_riddle st chat_id now).2.game_data chat_id = some s' ∧
        s'.completed_riddles = s.completed_riddles ++ [s.current_riddle] ∧
        s'.current_riddle = s.current_riddle + 1 ∧
        (st.riddles.length ≤ s.current_riddle + 1 →
          s'.status = .completed ∧ s'.end_time = some now) ∧
        (s.current_riddle + 1 < st.riddles.length →
          s'.status = s.status ∧ s'.end_time = s.end_time)) ∧
    (∀ (riddles : List Riddle) (chat_id : Nat) (team_name : String) (t0 : Int)
      (ts : List Int), 0 < riddles.length → ts.length ≤ riddles.length →
      ∃ s', dictGet (advanceFold
          (create_game_session (initState riddles) chat_id team_name t0).2
          chat_id ts).game_data chat_id = some s' ∧
        (s'.status = .completed ↔ ts.length = riddles.length) ∧
        (ts.length < riddles.length → s'.status = .active)) := by
  constructor
  · intro st chat_id now s h
    obtain ⟨s', heq, _, hpos, _, hcomp, _, hstat, hend⟩ :=
      advance_riddle_some st chat_id now s h
    refine ⟨s', by rw [heq], ?_, hcomp, hpos, ?_, ?_⟩
    · rw [heq]
      simp [dictGet_dictSet]
    · intro hc
      exact ⟨by rw [hstat, if_pos hc], by rw [hend, if_pos hc]⟩
    · intro hlt
      have hc : ¬ st.riddles.length ≤ s.current_riddle + 1 := Nat.not_le.mpr hlt
      exact ⟨by rw [hstat, if_neg hc], by rw [hend, if_neg hc]⟩
  · intro riddles chat_id team_name t0 ts h1 h2
    have hget : dictGet
        (create_game_session (initState riddles) chat_id team_name t0).2.game_data
        chat_id = some (freshSession team_name t0) := by
      simp [create_game_session, initState, dictSet, dictGet]
    obtain ⟨s', hget', hpos', hcomp', hstat'⟩ :=
      advanceFold_session ts _ chat_id _ hget
    simp only [freshSession, create_game_session, initState, Nat.zero_add]
      at hstat'
    refine ⟨s', hget', ?_, ?_⟩
    · rw [hstat']
      by_cases h0 : ts.length = 0
      · rw [if_pos h0]
        constructor
        · intro hx
          exact absurd hx (by decide)
        · intro hx
          exact ((by omega : False)).elim
      · rw [if_neg h0]
        by_cases hN : riddles.length ≤ ts.length
        · rw [if_pos hN]
          simp [Nat.le_antisymm h2 hN]
        · rw [if_neg hN]
          constructor
          · intro hx
            exact absurd hx (by decide)
          · intro hx
            exact ((by omega : False)).elim
    · intro hlt
      rw [hstat']
      by_cases h0 : ts.length = 0
      · rw [if_pos h0]
      · rw [if_neg h0, if_neg (Nat.not_le.mpr hlt)]

/-- C1 witness: a single advance on a fresh session behaves as stated, and
four advances on the four-riddle default catalog complete the game while
shorter prefixes would not. -/
theorem advance_spec_witness :
    (∃ s', (advance_riddle advWitnessState 1 5).1 = true ∧
      dictGet (advance_riddle advWitnessState 1 5).2.game_data 1 = some s' ∧
      s'.completed_riddles = (freshSession "ab" 0).completed_riddles
        ++ [(freshSession "ab" 0).current_riddle] ∧
      s'.current_riddle = (freshSession "ab" 0).current_riddle + 1 ∧
      (advWitnessState.riddles.length ≤ (freshSession "ab" 0).current_riddle + 1 →
        s'.status = .completed ∧ s'.end_time = some 5) ∧
      ((freshSession "ab" 0).current_riddle + 1 < advWitnessState.riddles.length →
        s'.status = (freshSession "ab" 0).status ∧
        s'.end_time = (freshSession "ab" 0).end_time)) ∧
    (∃ s', dictGet (advanceFold
        (create_game_session (initState defaultRiddles) 1 "ab" 0).2
        1 [1, 2, 3, 4]).game_data 1 = some s' ∧
      (s'.status = .completed ↔ ([1, 2, 3, 4] : List Int).length = defaultRiddles.length) ∧
      (([1, 2, 3, 4] : List Int).length < defaultRiddles.length → s'.status = .active)) :=
  ⟨advance_spec.1 advWitnessState 1 5 (freshSession "ab" 0) (by decide),
   advance_spec.2 defaultRiddles 1 "ab" 0 [1, 2, 3, 4] (by decide) (by decide)⟩

/-- C2: validate_qr_code returns true exactly when a current riddle exists
for the channel and the submitted code equals the code of that riddle
and case-sensitively; and a current riddle exists exactly when a session
exists whose position is below the catalog length.  The operation is a
pure total function of the state, so it cannot raise and leaves every
session unchanged. -/
theorem validate_qr_code_spec (st : BotState) (chat_id : Nat) (qr_data : String) :
    (validate_qr_code st chat_id qr_data = true ↔
      ∃ current, get_current_riddle st chat_id = some current ∧
        qr_data = current.qr_code) ∧
    ((∃ current, get_current_riddle st chat_id = some current) ↔
      ∃ s, dictGet st.game_data chat_id = some s ∧
        s.current_riddle < st.riddles.length) := by
  constructor
  · unfold validate_qr_code
    cases hcur : get_current_riddle st chat_id with
    | none => simp
    | some current => simp [beq_iff_eq]
  · unfold get_current_riddle
    cases hget : dictGet st.game_data chat_id with
    | none => simp
    | some s =>
      constructor
      · rintro ⟨c, hc⟩
        obtain ⟨hlt, _⟩ := List.getElem?_eq_some_iff.mp hc
        exact ⟨s, rfl, hlt⟩
      · rintro ⟨s', hs', hlt⟩
        injection hs' with hss
        subst hss
        exact ⟨st.riddles.get ⟨s.current_riddle, hlt⟩,
          List.getElem?_eq_some_iff.mpr ⟨hlt, rfl⟩⟩

/-- C3: the free-text answer path mutates nothing: submit_answer returns
the state unchanged for every session and every submitted text, whatever
the outcome; and the hint operation, the only other state-changing
engine call besides create and advance, leaves position, completed list,
status and both timestamps of every session unchanged. -/
theorem submit_answer_frame_spec :
    (∀ (st : BotState) (chat_id : Nat) (raw : String),
      (submit_answer st chat_id raw).2 = st) ∧
    (∀ (st : BotState) (chat_id c : Nat) (s : GameSession),
      dictGet st.game_data c = some s →
      ∃ s', dictGet (hint_command st chat_id).2.game_data c = some s' ∧
        s'.current_riddle = s.current_riddle ∧
        s'.completed_riddles = s.completed_riddles ∧
        s'.status = s.status ∧
        s'.start_time = s.start_time ∧
        s'.end_time = s.end_time) := by
  constructor
  · exact submit_answer_state
  · intro st chat_id c s h
    unfold hint_command
    cases hcur : get_current_riddle st chat_id with
    | none => exact ⟨s, h, rfl, rfl, rfl, rfl, rfl⟩
    | some current =>
      cases hget : dictGet st.game_data chat_id with
      | none => exact ⟨s, h, rfl, rfl, rfl, rfl, rfl⟩
      | some session =>
        simp only
        rw [dictGet_dictSet]
        by_cases hc : chat_id = c
        · rw [if_pos hc]
          rw [hc] at hget
          rw [h] at hget
          injection hget with hss
          subst hss
          exact ⟨_, rfl, rfl, rfl, rfl, rfl, rfl⟩
        · rw [if_neg hc]
          exact ⟨s, h, rfl, rfl, rfl, rfl, rfl⟩

/-- C3 witness: a correct answer submission at the park riddle leaves the
state untouched, and a hint request preserves every progression field of
the stored session. -/
theorem submit_answer_frame_witness :
    (submit_answer parkState 1 "park").2 = parkState ∧
    ∃ s', dictGet (hint_command parkState 1).2.game_data 1 = some s' ∧
      s'.current_riddle = parkSession.current_riddle ∧
      s'.completed_riddles = parkSession.completed_riddles ∧
      s'.status = parkSession.status ∧
      s'.start_time = parkSession.start_time ∧
      s'.end_time = parkSession.end_time :=
  ⟨submit_answer_frame_spec.1 parkState 1 "park",
   submit_answer_frame_spec.2 parkState 1 1 parkSession (by decide)⟩

/-- C5: on a reachable session whose status is completed, the current
riddle lookup returns none, answer submission reports no active game,
code validation returns false, the hint request reports no active riddle
without touching the state, and even a further advance leaves the status
completed: no engine operation brings the session back to active. -/
theorem completed_terminal_spec (riddles : List Riddle) (st : BotState)
    (chat_id : Nat) (s : GameSession) (hr : Reachable riddles st)
    (h : dictGet st.game_data chat_id = some s)
    (hc : s.status = .completed) :
    get_current_riddle st chat_id = none ∧
    (∀ raw, (submit_answer st chat_id raw).1 = .noActiveGame) ∧
    (∀ qr_data, validate_qr_code st chat_id qr_data = false) ∧
    hint_command st chat_id = (.noActiveRiddle, st) ∧
    (∀ now, ∃ s', dictGet (advance_riddle st chat_id now).2.game_data chat_id
      = some s' ∧ s'.status = .completed) := by
  have hwf := reachable_wf riddles st hr
  have hnone := completed_no_current st chat_id s hwf h hc
  refine ⟨hnone, ?_, ?_, hint_no_current st chat_id hnone, ?_⟩
  · intro raw
    refine submit_not_active st chat_id raw s h ?_
    rw [hc]
    intro hx
    cases hx
  · intro qr_data
    exact validate_no_current st chat_id qr_data hnone
  · intro now
    obtain ⟨s', heq, _, _, _, _, _, hstat, _⟩ :=
      advance_riddle_some st chat_id now s h
    have hlen : st.riddles.length ≤ s.current_riddle := ((hwf chat_id s h).2.2 hc).1
    refine ⟨s', ?_, ?_⟩
    · rw [heq]
      simp [dictGet_dictSet]
    · rw [hstat, if_pos (Nat.le_succ_of_le hlen)]

/-- C5 witness: after a full playthrough of the default catalog the
session at chat 1 is completed and has no current riddle. -/
theorem completed_terminal_witness :
    get_current_riddle completedState 1 = none ∧
    (submit_answer completedState 1 "library").1 = .noActiveGame :=
  ⟨(completed_terminal_spec defaultRiddles completedState 1 completedSession
      ⟨completedOps, rfl⟩ (by decide) rfl).1,
   (completed_terminal_spec defaultRiddles completedState 1 completedSession
      ⟨completedOps, rfl⟩ (by decide) rfl).2.1 "library"⟩

/-- C6: whenever a current riddle exists the hint operation returns its
hint text and increments the hints counter of the session by exactly one,
with no deduplication; with no session, or with a reachable completed
session, there is no current riddle and the operation reports no active
riddle leaving the state unchanged. -/
theorem hint_spec :
    (∀ (st : BotState) (chat_id : Nat) (current : Riddle) (s : GameSession),
      get_current_riddle st chat_id = some current →
      dictGet st.game_data chat_id = some s →
      (hint_command st chat_id).1 = .hintGiven current.hint ∧
      ∃ s', dictGet (hint_command st chat_id).2.game_data chat_id = some s' ∧
        s'.hints_used = s.hints_used + 1) ∧
    (∀ (st : BotState) (chat_id : Nat),
      get_current_riddle st chat_id = none →
      hint_command st chat_id = (.noActiveRiddle, st)) ∧
    (∀ (st : BotState) (chat_id : Nat),
      dictGet st.game_data chat_id = none →
      get_current_riddle st chat_id = none) ∧
    (∀ (riddles : List Riddle) (st : BotState) (chat_id : Nat) (s : GameSession),
      Reachable riddles st → dictGet st.game_data chat_id = some s →
      s.status = .completed →
      hint_command st chat_id = (.noActiveRiddle, st)) := by
  refine ⟨?_, hint_no_current, ?_, ?_⟩
  · intro st chat_id current s hcur hget
    unfold hint_command
    rw [hcur, hget]
    refine ⟨rfl, ?_⟩
    simp only
    rw [dictGet_dictSet, if_pos rfl]
    exact ⟨_, rfl, rfl⟩
  · intro st chat_id hget
    unfold get_current_riddle
    rw [hget]
  · intro riddles st chat_id s hr hget hc
    exact hint_no_current st chat_id
      (completed_no_current st chat_id s (reachable_wf riddles st hr) hget hc)

/-- C6 witness: on a fresh session at the first riddle, the hint request
returns the hint of the first catalog riddle and bumps the counter from
zero to one. -/
theorem hint_spec_witness :
    (hint_command hintState 2).1 = .hintGiven firstCatalogRiddle.hint ∧
    ∃ s', dictGet (hint_command hintState 2).2.game_data 2 = some s' ∧
      s'.hints_used = (freshSession "cd" 3).hints_used + 1 :=
  hint_spec.1 hintState 2 firstCatalogRiddle (freshSession "cd" 3)
    (by decide) (by decide)

/-- C9: advance on a session already at or past the catalog length still
reports success: it appends the out-of-range position to the completed
list, increments the position further, keeps the status completed, and
overwrites the end time with the time of this call, so the recorded
finish time of a completed session is not immutable. -/
theorem advance_after_completion_spec (st : BotState) (chat_id : Nat)
    (now : Int) (s : GameSession) (h : dictGet st.game_data chat_id = some s)
    (hpast : st.riddles.length ≤ s.current_riddle) :
    (advance_riddle st chat_id now).1 = true ∧
    ∃ s', dictGet (advance_riddle st chat_id now).2.game_data chat_id = some s' ∧
      s'.completed_riddles = s.completed_riddles ++ [s.current_riddle] ∧
      s'.current_riddle = s.current_riddle + 1 ∧
      s'.status = .completed ∧
      s'.end_time = some now := by
  obtain ⟨s', heq, _, hpos, _, hcomp, _, hstat, hend⟩ :=
    advance_riddle_some st chat_id now s h
  have hc : st.riddles.length ≤ s.current_riddle + 1 := Nat.le_succ_of_le hpast
  refine ⟨by rw [heq], s', ?_, hcomp, hpos, ?_, ?_⟩
  · rw [heq]
    simp [dictGet_dictSet]
  · rw [hstat, if_pos hc]
  · rw [hend, if_pos hc]

/-- C9 witness: advancing a session that is already completed with end
time 10 succeeds and rewrites the end time to the new clock reading 99. -/
theorem advance_after_completion_witness :
    (advance_riddle staleState 3 99).1 = true ∧
    ∃ s', dictGet (advance_riddle staleState 3 99).2.game_data 3 = some s' ∧
      s'.completed_riddles = staleSession.completed_riddles
        ++ [staleSession.current_riddle] ∧
      s'.current_riddle = staleSession.current_riddle + 1 ∧
      s'.status = .completed ∧
      s'.end_time = some 99 :=
  advance_after_completion_spec staleState 3 99 staleSession (by decide)
    (by decide)

/-- C10: every reachable session satisfies the progression invariant: the
current position equals the number of completed positions, and the
completed list is exactly 0, 1, up to position minus one, in order. -/
theorem session_position_invariant (riddles : List Riddle) (st : BotState)
    (chat_id : Nat) (s : GameSession) (hr : Reachable riddles st)
    (h : dictGet st.game_data chat_id = some s) :
    s.current_riddle = s.completed_riddles.length ∧
    s.completed_riddles = List.range s.current_riddle := by
  obtain ⟨h1, h2, _⟩ := reachable_wf riddles st hr chat_id s h
  exact ⟨h1, h2⟩

/-- C10 witness: after create, one advance, a hint and an answer attempt,
the session at chat 7 has position 1 and completed list exactly the range
0..0. -/
theorem session_position_invariant_witness :
    invariantSession.current_riddle = invariantSession.completed_riddles.length ∧
    invariantSession.completed_riddles = List.range invariantSession.current_riddle :=
  session_position_invariant defaultRiddles invariantState 7 invariantSession
    ⟨invariantOps, rfl⟩ (by decide)

/-! ### C4: text answers for riddles without an answer key -/

/-- A session sitting at catalog position 2, the cafe riddle, which has no
answer key. -/
def cafeSession : GameSession :=
  { team_name := "ab", current_riddle := 2, start_time := 0,
    completed_riddles := [0, 1], hints_used := 0, status := .active,
    end_time := none }

/-- State holding cafeSession at chat 1. -/
def cafeState : BotState :=
  { riddles := defaultRiddles, game_data := [(1, cafeSession)] }

/-- The riddle at catalog position 2 (no answer key). -/
def cafeRiddle : Riddle := defaultRiddles.get ⟨2, by decide⟩

/-- Outcome characterization of the answer comparison: on an active
session with a current riddle, the submission is judged correct exactly
when its normalization equals the normalized expected answer, a missing
answer key defaulting to the empty string. -/
theorem submit_answer_correct_iff (st : BotState) (chat_id : Nat)
    (raw : String) (s : GameSession) (current : Riddle)
    (hget : dictGet st.game_data chat_id = some s)
    (hact : s.status = .active)
    (hcur : get_current_riddle st chat_id = some current) :
    ((submit_answer st chat_id raw).1 = .correct ↔
      normalize raw = normalize ((current.answer).getD "")) := by
  unfold submit_answer
  rw [hget]
  simp only [hact, if_pos]
  rw [hcur]
  dsimp only
  by_cases h : normalize raw = normalize ((current.answer).getD "")
  · rw [if_pos h]
    simp [h]
  · rw [if_neg h]
    constructor
    · intro hx
      exact SubmitOutcome.noConfusion hx
    · intro hx
      exact absurd hx h

/-- C4 counterexample: the cafe riddle has no answer key, yet submitting a
blank text is judged correct, because the missing key defaults to the
empty string and the blank submission normalizes to the empty string. -/
theorem no_answer_text_counterexample :
    get_current_riddle cafeState 1 = some cafeRiddle ∧
    cafeRiddle.answer = none ∧
    (submit_answer cafeState 1 " ").1 = .correct := by decide

/-- C4 amended: for a current riddle with no answer key, a text submission
is judged correct exactly when the submission normalizes to the empty
string; every submission with non-blank content is never judged correct,
so such a riddle is cleared only through the location code. -/
theorem no_answer_text_spec (st : BotState) (chat_id : Nat) (raw : String)
    (s : GameSession) (current : Riddle)
    (hget : dictGet st.game_data chat_id = some s)
    (hact : s.status = .active)
    (hcur : get_current_riddle st chat_id = some current)
    (hans : current.answer = none) :
    ((submit_answer st chat_id raw).1 = .correct ↔ normalize raw = "") := by
  rw [submit_answer_correct_iff st chat_id raw s current hget hact hcur, hans]
  have hempty : normalize ((none : Option String).getD "") = "" := rfl
  rw [hempty]

/-- C4 witness: a non-blank submission at the cafe riddle is not judged
correct. -/
theorem no_answer_text_witness :
    ((submit_answer cafeState 1 "treasure").1 = .correct ↔
      normalize "treasure" = "") :=
  no_answer_text_spec cafeState 1 "treasure" cafeSession cafeRiddle
    (by decide) rfl (by decide) rfl

/-! ### C7: duplicate catalog entries and startup -/

/-- A riddle used twice to build a duplicated catalog. -/
def dupRiddle : Riddle :=
  { id := 9, riddle := "twin", answer := none, hint := "twin hint",
    location := "twin", image_path := none, map_path := none,
    qr_code := "TREASURE_HUNT_LOC_9_TWIN" }

/-- A catalog with duplicate ids and duplicate codes. -/
def dupCatalog : List Riddle := [dupRiddle, dupRiddle]

/-- A normal bot run: token supplied, no tool flags. -/
def runArgs : Args :=
  { token := some "tok", generate_qr := false, list_riddles := false,
    validate := false }

/-- A validate-only run. -/
def validateArgs : Args :=
  { token := none, generate_qr := false, list_riddles := false,
    validate := true }

/-- C7 counterexample: the duplicated catalog has duplicate ids and codes,
yet a normal run of main starts the bot with it: loading performs no
duplicate check and the engine runs, so the claimed fatal startup failure
does not happen. -/
theorem duplicate_catalog_counterexample :
    hasDuplicateIds dupCatalog = true ∧
    hasDuplicateCodes dupCatalog = true ∧
    mainDispatch runArgs dupCatalog = .botRunning := by decide

/-- C7 amended: duplicate detection lives only in the optional validate
mode: when the validate flag is set, a catalog with duplicate ids or codes
makes the dispatch report the duplication and neither reports success nor
starts the bot; without the validate flag no duplicate check is made and
the dispatch starts the bot with the duplicated catalog whenever a token
is supplied. -/
theorem duplicate_validation_spec (args : Args) (riddles : List Riddle) :
    (args.list_riddles = false → args.generate_qr = false →
      args.validate = true →
      (hasDuplicateIds riddles = true ∨ hasDuplicateCodes riddles = true) →
      (mainDispatch args riddles = .duplicateIds ∨
        mainDispatch args riddles = .duplicateCodes) ∧
      mainDispatch args riddles ≠ .botRunning ∧
      mainDispatch args riddles ≠ .validationPassed) ∧
    (args.list_riddles = false → args.generate_qr = false →
      args.validate = false → ∀ tok, args.token = some tok →
      mainDispatch args riddles = .botRunning) := by
  constructor
  · intro h1 h2 h3 hdup
    by_cases hid : hasDuplicateIds riddles = true
    · have hout : mainDispatch args riddles = .duplicateIds := by
        simp [mainDispatch, h1, h2, h3, hid]
      rw [hout]
      exact ⟨Or.inl rfl, by decide, by decide⟩
    · have hcd : hasDuplicateCodes riddles = true := by
        rcases hdup with h | h
        · exact absurd h hid
        · exact h
      have hout : mainDispatch args riddles = .duplicateCodes := by
        simp [mainDispatch, h1, h2, h3, hid, hcd]
      rw [hout]
      exact ⟨Or.inr rfl, by decide, by decide⟩
  · intro h1 h2 h3 tok htok
    simp [mainDispatch, h1, h2, h3, htok]

/-- C7 witness: on the duplicated catalog the validate mode reports the
duplication and does not start the bot, while the normal run starts it. -/
theorem duplicate_validation_witness :
    ((mainDispatch validateArgs dupCatalog = .duplicateIds ∨
       mainDispatch validateArgs dupCatalog = .duplicateCodes) ∧
      mainDispatch validateArgs dupCatalog ≠ .botRunning ∧
      mainDispatch validateArgs dupCatalog ≠ .validationPassed) ∧
    mainDispatch runArgs dupCatalog = .botRunning :=
  ⟨(duplicate_validation_spec validateArgs dupCatalog).1 rfl rfl rfl
      (Or.inl (by decide)),
   (duplicate_validation_spec runArgs dupCatalog).2 rfl rfl rfl "tok" rfl⟩

/-! ### C8: leaderboard ordering and stability -/

/-- Predicate picking the entries with a given sort key. -/
def sameKey (d : Int) (h : Nat) (e : LeaderboardEntry) : Bool :=
  e.duration == d && e.hints_used == h

theorem sameKey_entryLe (d : Int) (h : Nat) (a b : LeaderboardEntry)
    (ha : sameKey d h a = true) (hb : sameKey d h b = true) : entryLe a b := by
  simp only [sameKey, Bool.and_eq_true, beq_iff_eq] at ha hb
  exact Or.inr ⟨ha.1.trans hb.1.symm, by rw [ha.2, hb.2]⟩

theorem filter_orderedInsert_key (d : Int) (h : Nat) (a : LeaderboardEntry)
    (l : List LeaderboardEntry) (ha : sameKey d h a = true) :
    (List.orderedInsert entryLe a l).filter (sameKey d h)
      = a :: l.filter (sameKey d h) := by
  induction l with
  | nil => simp [List.orderedInsert, ha]
  | cons b t ih =>
    simp only [List.orderedInsert]
    by_cases hle : entryLe a b
    · rw [if_pos hle]
      simp [List.filter_cons, ha]
    · rw [if_neg hle]
      have hb : ¬ sameKey d h b = true := fun hbt =>
        hle (sameKey_entryLe d h a b ha hbt)
      simp [List.filter_cons, hb, ih]

theorem filter_orderedInsert_nokey (d : Int) (h : Nat) (a : LeaderboardEntry)
    (l : List LeaderboardEntry) (ha : sameKey d h a = false) :
    (List.orderedInsert entryLe a l).filter (sameKey d h)
      = l.filter (sameKey d h) := by
  induction l with
  | nil => simp [List.orderedInsert, ha]
  | cons b t ih =>
    simp only [List.orderedInsert]
    by_cases hle : entryLe a b
    · rw [if_pos hle]
      simp [List.filter_cons, ha]
    · rw [if_neg hle]
      simp [List.filter_cons, ih]

theorem filter_insertionSort_key (d : Int) (h : Nat)
    (l : List LeaderboardEntry) :
    (List.insertionSort entryLe l).filter (sameKey d h)
      = l.filter (sameKey d h) := by
  induction l with
  | nil => rfl
  | cons a t ih =>
    simp only [List.insertionSort]
    cases ha : sameKey d h a with
    | true =>
      rw [filter_orderedInsert_key d h a _ ha, ih]
      simp [List.filter_cons, ha]
    | false =>
      rw [filter_orderedInsert_nokey d h a _ ha, ih]
      simp [List.filter_cons, ha]

theorem completedGames_mem (gd : List (Nat × GameSession))
    (l : List LeaderboardEntry) (h : completedGames gd = some l)
    (e : LeaderboardEntry) :
    e ∈ l ↔ ∃ chat_id s end_time, (chat_id, s) ∈ gd ∧
      s.status = .completed ∧ s.end_time = some end_time ∧
      e = mkEntry chat_id s end_time := by
  induction gd generalizing l with
  | nil =>
    simp only [completedGames] at h
    injection h with h
    subst h
    simp
  | cons p rest ih =>
    obtain ⟨c, s⟩ := p
    simp only [completedGames] at h
    by_cases hc : s.status = .completed
    · rw [if_pos hc] at h
      cases het : s.end_time with
      | none =>
        rw [het] at h
        exact absurd h (by simp)
      | some et =>
        rw [het] at h
        cases hrest : completedGames rest with
        | none =>
          rw [hrest] at h
          exact absurd h (by simp)
        | some l' =>
          rw [hrest] at h
          injection h with h
          subst h
          constructor
          · intro hmem
            rcases List.mem_cons.mp hmem with rfl | hmem'
            · exact ⟨c, s, et, List.mem_cons_self _ _, hc, het, rfl⟩
            · obtain ⟨c', s', et', hm, hs', he', heq⟩ := (ih l' hrest).mp hmem'
              exact ⟨c', s', et', List.mem_cons_of_mem _ hm, hs', he', heq⟩
          · rintro ⟨c', s', et', hm, hs', he', heq⟩
            rcases List.mem_cons.mp hm with heq2 | hm'
            · injection heq2 with hc1 hc2
              subst hc1
              subst hc2
              rw [het] at he'
              injection he' with he'
              subst he'
              rw [heq]
              exact List.mem_cons_self _ _
            · exact List.mem_cons_of_mem _
                ((ih l' hrest).mpr ⟨c', s', et', hm', hs', he', heq⟩)
    · rw [if_neg hc] at h
      rw [ih l h]
      constructor
      · rintro ⟨c', s', et', hm, hs', he', heq⟩
        exact ⟨c', s', et', List.mem_cons_of_mem _ hm, hs', he', heq⟩
      · rintro ⟨c', s', et', hm, hs', he', heq⟩
        rcases List.mem_cons.mp hm with heq2 | hm'
        · injection heq2 with hc1 hc2
          subst hc1
          subst hc2
          exact absurd hs' hc
        · exact ⟨c', s', et', hm', hs', he', heq⟩

/-- C8: when the leaderboard is defined (every completed session carries
an end time), it is the stable sort of the completed games: it holds
exactly the entries of completed sessions, each with duration equal to
end time minus start time by construction of mkEntry; it is pairwise
ordered by ascending duration with ties broken by ascending hints used,
so a faster team precedes a slower one whatever the hint counts; and for
every key the entries carrying that exact key appear in their original
insertion order. -/
theorem leaderboard_spec (gd : List (Nat × GameSession))
    (l lb : List LeaderboardEntry) (hc : completedGames gd = some l)
    (hlb : get_leaderboard gd = some lb) :
    lb = List.insertionSort entryLe l ∧
    List.Pairwise entryLe lb ∧
    (∀ e, e ∈ lb ↔ ∃ chat_id s end_time, (chat_id, s) ∈ gd ∧
      s.status = .completed ∧ s.end_time = some end_time ∧
      e = mkEntry chat_id s end_time) ∧
    (∀ d h, lb.filter (sameKey d h) = l.filter (sameKey d h)) := by
  have hlb' : lb = List.insertionSort entryLe l := by
    unfold get_leaderboard at hlb
    rw [hc] at hlb
    injection hlb with hlb
    exact hlb.symm
  subst hlb'
  refine ⟨rfl, ?_, ?_, ?_⟩
  · exact List.sorted_insertionSort entryLe l
  · intro e
    rw [(List.perm_insertionSort entryLe l).mem_iff]
    exact completedGames_mem gd l hc e
  · intro d h
    exact filter_insertionSort_key d h l

/-- Completed session of the slower team: 600 seconds, 2 hints. -/
def slowSession : GameSession :=
  { team_name := "slow", current_riddle := 4, start_time := 0,
    completed_riddles := [0, 1, 2, 3], hints_used := 2,
    status := .completed, end_time := some 600 }

/-- Completed session of the faster team: 480 seconds, 5 hints. -/
def fastSession : GameSession :=
  { team_name := "fast", current_riddle := 4, start_time := 0,
    completed_riddles := [0, 1, 2, 3], hints_used := 5,
    status := .completed, end_time := some 480 }

/-- Game data with the slow team inserted first. -/
def raceGames : List (Nat × GameSession) := [(1, slowSession), (2, fastSession)]

/-- Leaderboard entry of the slow team. -/
def slowEntry : LeaderboardEntry :=
  { team_name := "slow", duration := 600, hints_used := 2, chat_id := 1 }

/-- Leaderboard entry of the fast team. -/
def fastEntry : LeaderboardEntry :=
  { team_name := "fast", duration := 480, hints_used := 5, chat_id := 2 }

/-- C8 witness: with finish durations 600 with 2 hints and 480 with 5
hints, the leaderboard puts the faster team first regardless of hints,
in the sorted, pairwise-ordered form the theorem states. -/
theorem leaderboard_spec_witness :
    [fastEntry, slowEntry] = List.insertionSort entryLe [slowEntry, fastEntry] ∧
    List.Pairwise entryLe [fastEntry, slowEntry] :=
  ⟨(leaderboard_spec raceGames [slowEntry, fastEntry] [fastEntry, slowEntry]
      (by decide) (by decide)).1,
   (leaderboard_spec raceGames [slowEntry, fastEntry] [fastEntry, slowEntry]
      (by decide) (by decide)).2.1⟩

end TreasureHunt
